import Mathlib

/-!
Verification of the file_sys_stash synchronization & indexing engine.

This file shallowly embeds the core logic of `sync_edl.py`,
`util_back_check.py` and the query path of `query_edl.py`:

* the local index store (sqlite tables `local_files`, `edl_files`,
  `edl_records`, `edl_metadata`) is modelled as lists of rows plus
  autoincrement counters;
* `INSERT OR IGNORE` against a uniqueness constraint is modelled as a
  guarded append returning the `rowcount > 0` flag;
* the filesystem walk is modelled as the list of `(dirpath, filename)`
  entries it yields; `os.path.normpath` is an uninterpreted parameter
  `norm : String → String` (it is a fixed deterministic function, which is
  all the idempotence and isolation claims depend on);
* sqlite `REAL` time values are modelled as exact rationals: the decimal
  literals accepted by the record pattern are parsed exactly, which keeps
  insertion deduplication deterministic exactly as repeated float parsing
  of the identical text is;
* Python regular expressions over filenames and record lines are modelled
  character-by-character (`\d` is modelled as an ASCII digit).
-/

/-! ## Character and decimal utilities -/

/-- Model of the replacement `re.sub(r'_chopped\d-\d$', '', base)` pattern
test from `sync_edl.py` line 261: does an 11-character slice spell
`_chopped<digit>-<digit>`?  Note each of `<N>` and `<M>` is a single
`\d`, exactly as in the source pattern. -/
def choppedSuffix (cs : List Char) : Bool :=
  match cs with
  | ['_', 'c', 'h', 'o', 'p', 'p', 'e', 'd', d1, '-', d2] => d1.isDigit && d2.isDigit
  | _ => false

/-- Model of `re.sub(r'_chopped\d-\d$', '', base)` from `sync_edl.py`
line 261 (`style_name = re.sub(..., '', os.path.splitext(filename)[0])`).
Since the pattern is anchored at the end of the string, the only possible
match is the final 11 characters; if they spell `_chopped<digit>-<digit>`
they are removed, otherwise the base name is returned unchanged. -/
def style_name (base : List Char) : List Char :=
  if choppedSuffix (base.drop (base.length - 11)) then
    base.take (base.length - 11)
  else base

/-- Model of `os.path.splitext(filename)[0]` for a plain filename (no
path separators, as delivered by `os.walk`): drop the extension starting
at the last dot, unless every character before that dot is itself a dot
(CPython's leading-dot rule, under which e.g. `.edl` has no extension). -/
def splitextBase (cs : List Char) : List Char :=
  match cs.reverse.findIdx? (fun c => c == '.') with
  | none => cs
  | some k =>
    let extIndex := cs.length - 1 - k
    if (cs.take extIndex).any (fun c => c != '.') then cs.take extIndex else cs

/-- The derived style label of an ingested cut-list filename:
`re.sub(r'_chopped\d-\d$', '', os.path.splitext(filename)[0])`
(`sync_edl.py` line 261). -/
def styleOf (filename : String) : String :=
  String.mk (style_name (splitextBase filename.data))

/-- Python `str.strip()`: remove leading and trailing whitespace. -/
def pyStrip (s : String) : String :=
  String.mk
    (((s.data.dropWhile Char.isWhitespace).reverse.dropWhile
        Char.isWhitespace).reverse)

/-- Python `str.lower()` (ASCII model). -/
def pyLower (s : String) : String :=
  String.mk (s.data.map Char.toLower)

/-- Does the first list start with the second? -/
def listStartsWith : List Char → List Char → Bool
  | _, [] => true
  | [], _ :: _ => false
  | c :: cs, d :: ds => (c == d) && listStartsWith cs ds

/-- Python `str.endswith`. -/
def strEndsWith (s p : String) : Bool :=
  listStartsWith s.data.reverse p.data.reverse

/-- Full match of the optional fractional part `(?:\.\d+)?` against what
remains after the integer digits: either nothing, or a dot followed by
one or more digits. -/
def fracTail (xs : List Char) : Bool :=
  xs.isEmpty ||
    (listStartsWith xs ['.'] && !(xs.drop 1).isEmpty &&
      (xs.drop 1).all Char.isDigit)

/-- Full match of the numeric-field pattern `\d+(?:\.\d+)?` from the
record regex in `sync_edl.py` line 289: one or more digits, optionally
followed by a dot and one or more digits. -/
def isDecimal (cs : List Char) : Bool :=
  !(cs.takeWhile Char.isDigit).isEmpty && fracTail (cs.dropWhile Char.isDigit)

/-- Numeric value of a digit string. -/
def digitsToNat (cs : List Char) : Nat :=
  cs.foldl (fun n c => n * 10 + (c.toNat - '0'.toNat)) 0

/-- Exact value of a decimal literal `\d+(?:\.\d+)?` (the value Python's
`float(...)` conversion in `sync_edl.py` lines 296-297 rounds to the
nearest binary64). -/
def decimalToRat (cs : List Char) : ℚ :=
  let ip := cs.takeWhile Char.isDigit
  match cs.dropWhile Char.isDigit with
  | '.' :: frac => (digitsToNat ip : ℚ) + (digitsToNat frac : ℚ) / ((10 : ℚ) ^ frac.length)
  | _ => (digitsToNat ip : ℚ)

/-! ## The record-line pattern

`sync_edl.py` line 289 matches each stripped record line against
`^(.*),(\d+(?:\.\d+)?),(\d+(?:\.\d+)?)$`.  Under Python's
leftmost-greedy backtracking the two numeric groups can never contain a
comma, so the third group is forced to be the text after the last comma
of the line and the second group the text between the last two commas;
the greedy `(.*)` group then captures everything before the
second-to-last comma.  A match exists exactly when the line has at least
two commas and both trailing fields fully match the decimal pattern.
`parseRecordLine` implements exactly that decomposition. -/

/-- Split a list at the first occurrence of `c`: returns the part before
and after, or `none` when `c` does not occur. -/
def breakAtFirst (c : Char) : List Char → Option (List Char × List Char)
  | [] => none
  | x :: xs =>
    if x = c then some ([], xs)
    else
      match breakAtFirst c xs with
      | none => none
      | some (a, b) => some (x :: a, b)

/-- Split a list at the last occurrence of `c`. -/
def splitAtLast (c : Char) (cs : List Char) : Option (List Char × List Char) :=
  match breakAtFirst c cs.reverse with
  | none => none
  | some (a, b) => some (b.reverse, a.reverse)

/-- Model of `re.match(r'^(.*),(\d+(?:\.\d+)?),(\d+(?:\.\d+)?)$', line)`
(`sync_edl.py` line 289), returning the three captured groups. -/
def parseRecordLine (cs : List Char) :
    Option (List Char × List Char × List Char) :=
  match splitAtLast ',' cs with
  | none => none
  | some (rest1, fB) =>
    match splitAtLast ',' rest1 with
    | none => none
    | some (path, fA) =>
      if isDecimal fA && isDecimal fB then some (path, fA, fB) else none

/-! ## The local index store

Schema from `create_local_db` (`sync_edl.py` lines 12-64).  Each table is
a list of rows in insertion order together with the next autoincrement
key; sqlite assigns keys from 1. -/

/-- A row of `local_files(local_id PK, file_path UNIQUE, stash_file_id)`. -/
structure FileRow where
  local_id : Nat
  file_path : String
  stash_file_id : Nat
deriving DecidableEq, Repr

/-- A row of `edl_files(edl_id PK, filename UNIQUE, ingested_at)`; the
timestamp is an opaque value. -/
structure EdlFileRow where
  edl_id : Nat
  filename : String
  ingested_at : Nat
deriving DecidableEq, Repr

/-- A row of `edl_records(record_id PK, edl_id, local_file_id,
start_time_ms, length_ms, UNIQUE(edl_id, local_file_id, start_time_ms,
length_ms))`. -/
structure EdlRecordRow where
  record_id : Nat
  edl_id : Nat
  local_file_id : Nat
  start_time_ms : ℚ
  length_ms : ℚ
deriving DecidableEq, Repr

/-- A row of `edl_metadata(edl_id PK, style, ...)`; only the columns the
ingestor ever writes are modelled. -/
structure EdlMetadataRow where
  edl_id : Nat
  style : String
deriving DecidableEq, Repr

/-- The local index store: the four tables plus autoincrement state. -/
structure LocalDB where
  local_files : List FileRow
  edl_files : List EdlFileRow
  edl_records : List EdlRecordRow
  edl_metadata : List EdlMetadataRow
  next_local_id : Nat
  next_edl_id : Nat
  next_record_id : Nat
deriving DecidableEq, Repr

/-- A freshly created store: `create_local_db` on a new database file. -/
def emptyLocalDB : LocalDB :=
  { local_files := [], edl_files := [], edl_records := [], edl_metadata := []
    next_local_id := 1, next_edl_id := 1, next_record_id := 1 }

/-- Does `local_files` contain a row with this path (the `UNIQUE`
constraint consulted by `INSERT OR IGNORE`)? -/
def pathMem (rows : List FileRow) (p : String) : Bool :=
  rows.any (fun r => decide (r.file_path = p))

/-- Does `edl_files` contain a row with this filename? -/
def filenameMem (rows : List EdlFileRow) (f : String) : Bool :=
  rows.any (fun r => decide (r.filename = f))

/-- Does `edl_metadata` contain a row with this key? -/
def metadataMem (rows : List EdlMetadataRow) (eid : Nat) : Bool :=
  rows.any (fun r => decide (r.edl_id = eid))

/-- Does `edl_records` contain a row with this unique tuple? -/
def recordMem (rows : List EdlRecordRow) (eid lid : Nat) (s l : ℚ) : Bool :=
  rows.any (fun r =>
    decide (r.edl_id = eid) && decide (r.local_file_id = lid) &&
    decide (r.start_time_ms = s) && decide (r.length_ms = l))

/-- `INSERT OR IGNORE INTO local_files (file_path, stash_file_id)`
(`sync_edl.py` lines 163-167) together with the `rowcount > 0` test:
returns the updated store and whether a row was actually inserted. -/
def upsertLocalFile (db : LocalDB) (p : String) (sid : Nat) : LocalDB × Bool :=
  if pathMem db.local_files p then (db, false)
  else
    ({ db with
        local_files := db.local_files ++ [⟨db.next_local_id, p, sid⟩]
        next_local_id := db.next_local_id + 1 }, true)

/-- Lookup in a Python dict built by successive assignments: the last
binding of a key wins (`stash_files[path] = id`, `sync_edl.py` line 86;
`local_file_lookup[path] = id`, line 222). -/
def dictLookup (entries : List (String × Nat)) (key : String) : Option Nat :=
  (entries.reverse.find? (fun e => decide (e.1 = key))).map (fun e => e.2)

/-- The in-memory `local_file_lookup` the ingestor prefetches from
`local_files` (`sync_edl.py` lines 218-222): entry insertion order
follows row order, keys are normalized paths. -/
def localFileLookup (norm : String → String) (rows : List FileRow) :
    List (String × Nat) :=
  rows.map (fun r => (norm r.file_path, r.local_id))

/-! ## The Sync Reconciler (`sync_filesystem_with_stash`) -/

/-- The media extension set from `sync_edl.py` line 113 (the `'webm'`
entry really has no dot in the source). -/
def MEDIA_EXTENSIONS : List String :=
  [".mp4", ".mkv", ".avi", ".mov", ".wmv", "webm", ".flv", ".jpg", ".jpeg",
   ".png", ".gif", ".bmp", ".tiff", ".mp3", ".wav", ".flac", ".aac"]

/-- `filename.lower().endswith(tuple(MEDIA_EXTENSIONS))`
(`sync_edl.py` line 154). -/
def isMediaFile (filename : String) : Bool :=
  MEDIA_EXTENSIONS.any (fun ext => strEndsWith (pyLower filename) ext)

/-- One iteration of the scan loop of `sync_filesystem_with_stash`
(`sync_edl.py` lines 152-184) over a walk entry `(dirpath, filename)`:
skip non-media names; otherwise normalize the joined path, and when the
catalog mapping knows it, `INSERT OR IGNORE` it, recording the path in
`new_files_added` exactly when the insert reported a new row.  Paths
absent from the catalog only go to the missing-files log. -/
def syncStep (norm : String → String) (stash : List (String × Nat))
    (acc : LocalDB × List String) (e : String × String) : LocalDB × List String :=
  if isMediaFile e.2 then
    let full := norm (e.1 ++ "/" ++ e.2)
    match dictLookup stash full with
    | some sid =>
      let r := upsertLocalFile acc.1 full sid
      (r.1, if r.2 then acc.2 ++ [full] else acc.2)
    | none => acc
  else acc

/-- The `sync` command `sync_filesystem_with_stash` (`sync_edl.py`
lines 108-202) as a state transformer.

* `stashResult` is the outcome of `get_stash_files`: `none` models a
  `sqlite3.Error` while reading the catalog;
* `storeFile` is the on-disk local store: `none` when the database file
  does not exist (`sqlite3.connect` then creates a fresh one and
  `create_local_db` installs empty tables);
* `walk` is the `(dirpath, filename)` sequence produced by `os.walk`.

The rebuild flag removes the store file before anything else (line 116);
the connection and table creation (lines 121-122) precede the catalog
read (line 126), which precedes the pre-count and the scan; when the
pre-count finds no media files the scan is skipped.  The result is the
final on-disk store and the `new_files_added` report. -/
def syncCommand (norm : String → String)
    (stashResult : Option (List (String × Nat))) (rebuild : Bool)
    (storeFile : Option LocalDB) (walk : List (String × String)) :
    Option LocalDB × List String :=
  let db0 := (if rebuild then none else storeFile).getD emptyLocalDB
  match stashResult with
  | none => (some db0, [])
  | some stash =>
    if (walk.filter (fun e => isMediaFile e.2)).length = 0 then (some db0, [])
    else
      let r := walk.foldl (syncStep norm stash) (db0, [])
      (some r.1, r.2)

/-! ## The EDL Ingestor (`ingest_edl_files`) -/

/-- `INSERT OR IGNORE INTO edl_files` followed by
`SELECT edl_id FROM edl_files WHERE filename = ?` and `fetchone`
(`sync_edl.py` lines 264-274): insertion is suppressed when the filename
exists, and the id of the (first) row carrying the filename is
returned. -/
def getOrCreateEdlFile (db : LocalDB) (f : String) (t : Nat) :
    LocalDB × Option Nat :=
  let db1 :=
    if filenameMem db.edl_files f then db
    else
      { db with
          edl_files := db.edl_files ++ [⟨db.next_edl_id, f, t⟩]
          next_edl_id := db.next_edl_id + 1 }
  (db1, (db1.edl_files.find? (fun r => decide (r.filename = f))).map
          (fun r => r.edl_id))

/-- `INSERT OR IGNORE INTO edl_metadata (edl_id, style)`
(`sync_edl.py` lines 277-281): `edl_id` is the primary key, so the row is
only added when no metadata row for this source exists yet. -/
def insertMetadata (db : LocalDB) (eid : Nat) (style : String) : LocalDB :=
  if metadataMem db.edl_metadata eid then db
  else { db with edl_metadata := db.edl_metadata ++ [⟨eid, style⟩] }

/-- `INSERT OR IGNORE INTO edl_records` with the tuple uniqueness
constraint, plus the `rowcount > 0` test (`sync_edl.py` lines 301-307). -/
def insertEdlRecord (db : LocalDB) (eid lid : Nat) (s l : ℚ) : LocalDB × Bool :=
  if recordMem db.edl_records eid lid s l then (db, false)
  else
    ({ db with
        edl_records := db.edl_records ++ [⟨db.next_record_id, eid, lid, s, l⟩]
        next_record_id := db.next_record_id + 1 }, true)

/-- Resolution of one record line (`sync_edl.py` lines 284-297):
strip it; blank lines and comment lines are skipped, as are lines the
record pattern rejects and lines whose normalized path is not in the
prefetched lookup.  Otherwise the result is the resolved `local_id` and
the two times converted from seconds to stored milliseconds (`* 1000`). -/
def resolveLine (norm : String → String) (lookup : List (String × Nat))
    (line : String) : Option (Nat × ℚ × ℚ) :=
  let s := pyStrip line
  if s.data.isEmpty || listStartsWith s.data ['#'] then none
  else
    match parseRecordLine s.data with
    | none => none
    | some (p, a, b) =>
      match dictLookup lookup (norm (String.mk p)) with
      | none => none
      | some lid => some (lid, decimalToRat a * 1000, decimalToRat b * 1000)

/-- One iteration of the record loop (`sync_edl.py` lines 284-313) on the
accumulator `(store, records_added_count)`: unresolvable lines only
produce log entries; resolvable lines are inserted idempotently, with the
counter advanced exactly when a new row was inserted. -/
def processRecordLine (norm : String → String) (lookup : List (String × Nat))
    (eid : Nat) (acc : LocalDB × Nat) (line : String) : LocalDB × Nat :=
  match resolveLine norm lookup line with
  | none => acc
  | some (lid, s, l) =>
    let r := insertEdlRecord acc.1 eid lid s l
    (r.1, if r.2 then acc.2 + 1 else acc.2)

/-- Ingestion of one EDL file (`sync_edl.py` lines 244-316) given the
prefetched path lookup; `lines` is the `splitlines()` of the stripped
file contents, `t` the `datetime.now()` timestamp.  An empty file or a
file whose first line (stripped) is not the exact header token is logged
and skipped whole.  Otherwise the source row and its metadata row (style
derived by `styleOf`) are created idempotently before the record loop
runs.  The impossible case of `fetchone` returning no row models the
`except` clause that abandons the rest of the file. -/
def ingestEdlFile (norm : String → String) (lookup : List (String × Nat))
    (acc : LocalDB × Nat) (filename : String) (lines : List String) (t : Nat) :
    LocalDB × Nat :=
  match lines with
  | [] => acc
  | header :: rest =>
    if pyStrip header = "# mpv EDL v0" then
      match (getOrCreateEdlFile acc.1 filename t).2 with
      | none => ((getOrCreateEdlFile acc.1 filename t).1, acc.2)
      | some eid =>
        rest.foldl (processRecordLine norm lookup eid)
          (insertMetadata (getOrCreateEdlFile acc.1 filename t).1 eid
            (styleOf filename), acc.2)
    else acc

/-- The `ingest` command `ingest_edl_files` (`sync_edl.py` lines 205-328):
the path lookup is prefetched once from the store, ingestion is skipped
when the walk found no EDL files, and otherwise every discovered file is
ingested in walk order, threading the store and the
`records_added_count` total. -/
def ingestRun (norm : String → String) (db : LocalDB)
    (files : List (String × List String)) (t : Nat) : LocalDB × Nat :=
  let lookup := localFileLookup norm db.local_files
  if files.isEmpty then (db, 0)
  else files.foldl (fun acc f => ingestEdlFile norm lookup acc f.1 f.2 t) (db, 0)

/-! ## The Integrity Checker & Cleanup (`util_back_check.py`) -/

/-- `DELETE FROM edl_records WHERE local_file_id IN (...)`
(`util_back_check.py` lines 65-67), with the `rowcount` of deleted rows. -/
def deleteEdlRecords (db : LocalDB) (ids : List Nat) : LocalDB × Nat :=
  let kept := db.edl_records.filter (fun r => !(ids.contains r.local_file_id))
  ({ db with edl_records := kept }, db.edl_records.length - kept.length)

/-- `DELETE FROM local_files WHERE local_id IN (...)`
(`util_back_check.py` lines 70-72), with the `rowcount` of deleted rows. -/
def deleteLocalFiles (db : LocalDB) (ids : List Nat) : LocalDB × Nat :=
  let kept := db.local_files.filter (fun r => !(ids.contains r.local_id))
  ({ db with local_files := kept }, db.local_files.length - kept.length)

/-- `delete_stale_records` (`util_back_check.py` lines 49-79): an empty
missing set is an immediate no-op; otherwise the dependent EDL records
are deleted first, then the file rows, and the per-relation deletion
counts are reported (records count first, matching the order the
deletions run). -/
def deleteStaleRecords (db : LocalDB) (ids : List Nat) : LocalDB × Nat × Nat :=
  if ids.isEmpty then (db, 0, 0)
  else
    let r1 := deleteEdlRecords db ids
    let r2 := deleteLocalFiles r1.1 ids
    (r2.1, r1.2, r2.2)

/-- `user_input.strip().lower()` classified against the accepted answers
(`util_back_check.py` lines 114-124): `some true` confirms, `some false`
declines, `none` is ambiguous input that keeps the prompt looping. -/
def interpretAnswer (s : String) : Option Bool :=
  let t := pyLower (pyStrip s)
  if t = "yes" ∨ t = "y" then some true
  else if t = "no" ∨ t = "n" then some false
  else none

/-- The confirmation loop of `main` (`util_back_check.py` lines 112-124)
driven by the sequence of operator answers: ambiguous answers are
re-prompted; the first unambiguous answer either runs
`delete_stale_records` (yes) or leaves the store untouched (no), and in
both cases the process then exits successfully (`some`); `none` means the
answer sequence never resolved the prompt. -/
def cleanupPrompt (db : LocalDB) (missingIds : List Nat) :
    List String → Option (LocalDB × Bool)
  | [] => none
  | a :: rest =>
    match interpretAnswer a with
    | some true => some ((deleteStaleRecords db missingIds).1, true)
    | some false => some (db, false)
    | none => cleanupPrompt db missingIds rest

/-- A malformed record line in the sense of the ingestion loop: it is not
blank and not a comment, yet it does not resolve — the record pattern
rejects it, or its normalized path is absent from the prefetched index
lookup (`sync_edl.py` lines 310-313). -/
def isMalformedRecordLine (norm : String → String) (lookup : List (String × Nat))
    (line : String) : Bool :=
  !(pyStrip line).data.isEmpty && !listStartsWith (pyStrip line).data ['#'] &&
    (resolveLine norm lookup line).isNone

/-- A small populated store: one indexed file. -/
def sampleDB : LocalDB :=
  { local_files := [⟨1, "/media/a.mp4", 7⟩], edl_files := [], edl_records := []
    edl_metadata := [], next_local_id := 2, next_edl_id := 1, next_record_id := 1 }

/-! ## Lemmas about the Sync Reconciler -/

theorem pathMem_upsert_mono {db : LocalDB} {p : String} {sid : Nat} {q : String}
    (h : pathMem db.local_files q = true) :
    pathMem (upsertLocalFile db p sid).1.local_files q = true := by
  unfold upsertLocalFile
  split
  · exact h
  · simpa [pathMem, List.any_append] using Or.inl (by simpa [pathMem] using h)

theorem pathMem_upsert_self (db : LocalDB) (p : String) (sid : Nat) :
    pathMem (upsertLocalFile db p sid).1.local_files p = true := by
  unfold upsertLocalFile
  split
  · assumption
  · simp [pathMem, List.any_append]

theorem upsert_of_pathMem {db : LocalDB} {p : String} {sid : Nat}
    (h : pathMem db.local_files p = true) :
    upsertLocalFile db p sid = (db, false) := by
  unfold upsertLocalFile
  simp [h]

theorem syncStep_mono {norm : String → String} {stash : List (String × Nat)}
    {db : LocalDB} {nf : List String} {e : String × String} {q : String}
    (h : pathMem db.local_files q = true) :
    pathMem (syncStep norm stash (db, nf) e).1.local_files q = true := by
  unfold syncStep
  by_cases hm : isMediaFile e.2
  · simp only [if_pos hm]
    rcases hl : dictLookup stash (norm (e.1 ++ "/" ++ e.2)) with _ | sid
    · simpa [hl] using h
    · simpa [hl] using pathMem_upsert_mono h
  · simpa [if_neg hm] using h

theorem syncFold_mono {norm : String → String} {stash : List (String × Nat)}
    (walk : List (String × String)) {db : LocalDB} {nf : List String} {q : String}
    (h : pathMem db.local_files q = true) :
    pathMem ((walk.foldl (syncStep norm stash) (db, nf)).1).local_files q = true := by
  induction walk generalizing db nf with
  | nil => simpa using h
  | cons e rest ih =>
    rcases hs : syncStep norm stash (db, nf) e with ⟨db', nf'⟩
    have h' : pathMem db'.local_files q = true := by
      have := @syncStep_mono norm stash db nf e q h
      rwa [hs] at this
    simpa [List.foldl_cons, hs] using ih h'

theorem syncStep_covers {norm : String → String} {stash : List (String × Nat)}
    (db : LocalDB) (nf : List String) (e : String × String) (sid : Nat)
    (hm : isMediaFile e.2 = true)
    (hl : dictLookup stash (norm (e.1 ++ "/" ++ e.2)) = some sid) :
    pathMem (syncStep norm stash (db, nf) e).1.local_files
      (norm (e.1 ++ "/" ++ e.2)) = true := by
  unfold syncStep
  simp only [if_pos hm, hl]
  exact pathMem_upsert_self db _ sid

theorem syncFold_covers {norm : String → String} {stash : List (String × Nat)}
    (walk : List (String × String)) (db : LocalDB) (nf : List String)
    (e : String × String) (he : e ∈ walk) (hm : isMediaFile e.2 = true)
    (sid : Nat) (hl : dictLookup stash (norm (e.1 ++ "/" ++ e.2)) = some sid) :
    pathMem ((walk.foldl (syncStep norm stash) (db, nf)).1).local_files
      (norm (e.1 ++ "/" ++ e.2)) = true := by
  induction walk generalizing db nf with
  | nil => cases he
  | cons x rest ih =>
    rcases List.mem_cons.mp he with rfl | hmem
    · rcases hs : syncStep norm stash (db, nf) e with ⟨db', nf'⟩
      have h' : pathMem db'.local_files (norm (e.1 ++ "/" ++ e.2)) = true := by
        have := @syncStep_covers norm stash db nf e sid hm hl
        rwa [hs] at this
      simpa [List.foldl_cons, hs] using syncFold_mono rest h'
    · rcases hs : syncStep norm stash (db, nf) x with ⟨db', nf'⟩
      simpa [List.foldl_cons, hs] using ih db' nf' hmem

theorem syncStep_fixed {norm : String → String} {stash : List (String × Nat)}
    {db : LocalDB} {nf : List String} {e : String × String}
    (h : isMediaFile e.2 = true →
      ∀ sid, dictLookup stash (norm (e.1 ++ "/" ++ e.2)) = some sid →
        pathMem db.local_files (norm (e.1 ++ "/" ++ e.2)) = true) :
    syncStep norm stash (db, nf) e = (db, nf) := by
  unfold syncStep
  by_cases hm : isMediaFile e.2
  · simp only [if_pos hm]
    rcases hl : dictLookup stash (norm (e.1 ++ "/" ++ e.2)) with _ | sid
    · rfl
    · have hp := h hm sid hl
      simp [upsert_of_pathMem hp]
  · simp [if_neg hm]

theorem syncFold_fixed {norm : String → String} {stash : List (String × Nat)}
    (walk : List (String × String)) (db : LocalDB) (nf : List String)
    (h : ∀ e ∈ walk, isMediaFile e.2 = true →
      ∀ sid, dictLookup stash (norm (e.1 ++ "/" ++ e.2)) = some sid →
        pathMem db.local_files (norm (e.1 ++ "/" ++ e.2)) = true) :
    walk.foldl (syncStep norm stash) (db, nf) = (db, nf) := by
  induction walk with
  | nil => rfl
  | cons e rest ih =>
    have hstep : syncStep norm stash (db, nf) e = (db, nf) :=
      syncStep_fixed (h e (List.mem_cons_self e rest))
    simpa [List.foldl_cons, hstep] using
      ih (fun x hx => h x (List.mem_cons_of_mem e hx))

/-- Claim C1: running the Sync Reconciler a second time against an
unchanged filesystem walk and an unchanged catalog mapping inserts zero
new file rows — the `new_files_added` report of the second run is empty,
so every upsert reported already-present — and leaves the local index
store exactly equal to its state after the first run. -/
theorem sync_reconciler_idempotent (norm : String → String)
    (stash : List (String × Nat)) (storeFile : Option LocalDB)
    (walk : List (String × String)) :
    syncCommand norm (some stash) false
        (syncCommand norm (some stash) false storeFile walk).1 walk
      = ((syncCommand norm (some stash) false storeFile walk).1, []) := by
  unfold syncCommand
  by_cases hcnt : (walk.filter (fun e => isMediaFile e.2)).length = 0
  · simp [hcnt]
  · simp only [if_neg hcnt, Bool.false_eq_true, Option.getD_some, if_false]
    have hcov : ∀ e ∈ walk, isMediaFile e.2 = true →
        ∀ sid, dictLookup stash (norm (e.1 ++ "/" ++ e.2)) = some sid →
          pathMem ((walk.foldl (syncStep norm stash)
            ((storeFile.getD emptyLocalDB), [])).1).local_files
            (norm (e.1 ++ "/" ++ e.2)) = true := by
      intro e he hm sid hl
      exact syncFold_covers walk _ _ e he hm sid hl
    have hfix := syncFold_fixed walk
      ((walk.foldl (syncStep norm stash) ((storeFile.getD emptyLocalDB), [])).1) []
      (fun e he hm sid hl => hcov e he hm sid hl)
    simp [hfix]

/-! ## Catalog failure (Claim C3) -/

/-- Claim C3, counterexample: in rebuild mode the existing store file is
deleted (and replaced by an empty table-initialized store) before the
catalog is even read, so a catalog failure does not leave the store
unmutated.  Concretely, rebuilding over a store holding one file row
with a failing catalog leaves an empty store instead. -/
theorem catalog_failure_mutates_store_cex :
    (syncCommand id none true (some sampleDB) []).1 ≠ some sampleDB := by decide

/-- Claim C3, amended: when the catalog read fails, the run aborts before
any filesystem traversal — the result does not depend on the walk at all
— and no row is written; but the store is not left fully untouched: the
run has already deleted the store file in rebuild mode and has already
created the store file with empty tables when it did not exist, so the
resulting store is exactly the (possibly fresh) table-initialized store
the run opened. -/
theorem catalog_failure_aborts_before_scan (norm : String → String)
    (rebuild : Bool) (storeFile : Option LocalDB) (walk : List (String × String)) :
    syncCommand norm none rebuild storeFile walk
      = (some ((if rebuild then none else storeFile).getD emptyLocalDB), []) := rfl

/-! ## Cleanup (Claims C7 and C8) -/

theorem length_sub_filter_not {α : Type} (p : α → Bool) (l : List α) :
    l.length - (l.filter (fun x => !(p x))).length = (l.filter p).length := by
  induction l with
  | nil => rfl
  | cons a l ih =>
    have hle : (l.filter (fun x => !(p x))).length ≤ l.length :=
      List.length_filter_le _ l
    cases hpa : p a <;> simp [List.filter_cons, hpa] <;> omega

/-- Claim C7: confirmed cleanup deletes exactly the cut records whose
file reference is in the missing-id set and exactly the file rows whose
id is in that set (the record deletion runs first, as
`deleteStaleRecords` composes `deleteEdlRecords` before
`deleteLocalFiles`), reports the per-relation deletion counts, and
leaves every other file row, every other cut record, and all source and
metadata rows unchanged. -/
theorem delete_stale_exact (db : LocalDB) (ids : List Nat) :
    (deleteStaleRecords db ids).1.edl_records
        = db.edl_records.filter (fun r => !(ids.contains r.local_file_id)) ∧
    (deleteStaleRecords db ids).1.local_files
        = db.local_files.filter (fun r => !(ids.contains r.local_id)) ∧
    (deleteStaleRecords db ids).1.edl_files = db.edl_files ∧
    (deleteStaleRecords db ids).1.edl_metadata = db.edl_metadata ∧
    (deleteStaleRecords db ids).2.1
        = (db.edl_records.filter (fun r => ids.contains r.local_file_id)).length ∧
    (deleteStaleRecords db ids).2.2
        = (db.local_files.filter (fun r => ids.contains r.local_id)).length := by
  unfold deleteStaleRecords deleteEdlRecords deleteLocalFiles
  by_cases hids : ids.isEmpty
  · rcases List.isEmpty_iff.mp hids
    simp
  · simp [hids, length_sub_filter_not]

/-- Claim C8: when, after any number of ambiguous answers, the operator
declines cleanup, the store is left completely unchanged and the process
exits successfully (the prompt loop terminates without ever calling
`delete_stale_records`). -/
theorem decline_leaves_store_unchanged (db : LocalDB) (ids : List Nat)
    (pre : List String) (a : String) (rest : List String)
    (hpre : ∀ x ∈ pre, interpretAnswer x = none)
    (ha : interpretAnswer a = some false) :
    cleanupPrompt db ids (pre ++ a :: rest) = some (db, false) := by
  induction pre with
  | nil => simp [cleanupPrompt, ha]
  | cons x xs ih =>
    have hx : interpretAnswer x = none := hpre x (List.mem_cons_self x xs)
    simpa [cleanupPrompt, hx] using
      ih (fun y hy => hpre y (List.mem_cons_of_mem x hy))

/-- Claim C8, witness: one ambiguous answer followed by a decline leaves
the sample store untouched. -/
theorem decline_leaves_store_unchanged_witness :
    cleanupPrompt sampleDB [1] ["maybe", " No "] = some (sampleDB, false) :=
  decline_leaves_store_unchanged sampleDB [1] ["maybe"] " No " []
    (by decide) (by decide)

/-! ## Lemmas about the EDL Ingestor -/

theorem recordMem_insert_mono {db : LocalDB} {e2 l2 : Nat} {s2 t2 : ℚ}
    {eid lid : Nat} {s l : ℚ}
    (h : recordMem db.edl_records eid lid s l = true) :
    recordMem (insertEdlRecord db e2 l2 s2 t2).1.edl_records eid lid s l = true := by
  unfold insertEdlRecord
  split
  · exact h
  · simpa [recordMem, List.any_append] using Or.inl (by simpa [recordMem] using h)

theorem recordMem_insert_self (db : LocalDB) (eid lid : Nat) (s l : ℚ) :
    recordMem (insertEdlRecord db eid lid s l).1.edl_records eid lid s l = true := by
  unfold insertEdlRecord
  split
  · assumption
  · simp [recordMem, List.any_append]

theorem insert_of_recordMem {db : LocalDB} {eid lid : Nat} {s l : ℚ}
    (h : recordMem db.edl_records eid lid s l = true) :
    insertEdlRecord db eid lid s l = (db, false) := by
  unfold insertEdlRecord
  simp [h]

theorem insertEdlRecord_frame (db : LocalDB) (eid lid : Nat) (s l : ℚ) :
    (insertEdlRecord db eid lid s l).1.local_files = db.local_files ∧
    (insertEdlRecord db eid lid s l).1.edl_files = db.edl_files ∧
    (insertEdlRecord db eid lid s l).1.edl_metadata = db.edl_metadata := by
  unfold insertEdlRecord
  split <;> simp

theorem processRecordLine_frame (norm : String → String)
    (lookup : List (String × Nat)) (eid : Nat) (acc : LocalDB × Nat) (line : String) :
    (processRecordLine norm lookup eid acc line).1.local_files = acc.1.local_files ∧
    (processRecordLine norm lookup eid acc line).1.edl_files = acc.1.edl_files ∧
    (processRecordLine norm lookup eid acc line).1.edl_metadata = acc.1.edl_metadata := by
  unfold processRecordLine
  rcases hr : resolveLine norm lookup line with _ | ⟨lid, s, l⟩
  · simp
  · simpa using insertEdlRecord_frame acc.1 eid lid s l

theorem processFold_frame (norm : String → String) (lookup : List (String × Nat))
    (eid : Nat) (lines : List String) (acc : LocalDB × Nat) :
    ((lines.foldl (processRecordLine norm lookup eid) acc).1.local_files
        = acc.1.local_files) ∧
    ((lines.foldl (processRecordLine norm lookup eid) acc).1.edl_files
        = acc.1.edl_files) ∧
    ((lines.foldl (processRecordLine norm lookup eid) acc).1.edl_metadata
        = acc.1.edl_metadata) := by
  induction lines generalizing acc with
  | nil => simp
  | cons line rest ih =>
    obtain ⟨h1, h2, h3⟩ := processRecordLine_frame norm lookup eid acc line
    obtain ⟨g1, g2, g3⟩ := ih (processRecordLine norm lookup eid acc line)
    exact ⟨by rw [List.foldl_cons, g1, h1], by rw [List.foldl_cons, g2, h2],
           by rw [List.foldl_cons, g3, h3]⟩

theorem processRecordLine_recordMono {norm : String → String}
    {lookup : List (String × Nat)} {eid' : Nat} {acc : LocalDB × Nat} {line : String}
    {eid lid : Nat} {s l : ℚ}
    (h : recordMem acc.1.edl_records eid lid s l = true) :
    recordMem (processRecordLine norm lookup eid' acc line).1.edl_records
      eid lid s l = true := by
  unfold processRecordLine
  rcases hr : resolveLine norm lookup line with _ | ⟨lid', s', l'⟩
  · simpa using h
  · simpa using recordMem_insert_mono h

theorem processFold_recordMono {norm : String → String}
    {lookup : List (String × Nat)} {eid' : Nat} (lines : List String)
    {acc : LocalDB × Nat} {eid lid : Nat} {s l : ℚ}
    (h : recordMem acc.1.edl_records eid lid s l = true) :
    recordMem ((lines.foldl (processRecordLine norm lookup eid') acc).1.edl_records)
      eid lid s l = true := by
  induction lines generalizing acc with
  | nil => simpa using h
  | cons line rest ih =>
    simpa [List.foldl_cons] using ih (processRecordLine_recordMono h)

theorem processRecordLine_covers {norm : String → String}
    {lookup : List (String × Nat)} (eid : Nat) (acc : LocalDB × Nat) {line : String}
    {lid : Nat} {s l : ℚ} (h : resolveLine norm lookup line = some (lid, s, l)) :
    recordMem (processRecordLine norm lookup eid acc line).1.edl_records
      eid lid s l = true := by
  unfold processRecordLine
  rw [h]
  simpa using recordMem_insert_self acc.1 eid lid s l

theorem processFold_covers {norm : String → String}
    {lookup : List (String × Nat)} (eid : Nat) (lines : List String)
    (acc : LocalDB × Nat) {line : String} (hline : line ∈ lines)
    {lid : Nat} {s l : ℚ} (h : resolveLine norm lookup line = some (lid, s, l)) :
    recordMem ((lines.foldl (processRecordLine norm lookup eid) acc).1.edl_records)
      eid lid s l = true := by
  induction lines generalizing acc with
  | nil => cases hline
  | cons x rest ih =>
    rcases List.mem_cons.mp hline with rfl | hmem
    · simpa [List.foldl_cons] using
        processFold_recordMono rest (processRecordLine_covers eid acc h)
    · simpa [List.foldl_cons] using ih _ hmem

theorem processRecordLine_fixed {norm : String → String}
    {lookup : List (String × Nat)} {eid : Nat} {db : LocalDB} {c : Nat}
    {line : String}
    (h : ∀ lid s l, resolveLine norm lookup line = some (lid, s, l) →
      recordMem db.edl_records eid lid s l = true) :
    processRecordLine norm lookup eid (db, c) line = (db, c) := by
  unfold processRecordLine
  rcases hr : resolveLine norm lookup line with _ | ⟨lid, s, l⟩
  · rfl
  · simp [insert_of_recordMem (h lid s l hr)]

theorem processFold_fixed {norm : String → String}
    {lookup : List (String × Nat)} {eid : Nat} (lines : List String)
    (db : LocalDB) (c : Nat)
    (h : ∀ line ∈ lines, ∀ lid s l,
      resolveLine norm lookup line = some (lid, s, l) →
      recordMem db.edl_records eid lid s l = true) :
    lines.foldl (processRecordLine norm lookup eid) (db, c) = (db, c) := by
  induction lines with
  | nil => rfl
  | cons line rest ih =>
    have hstep : processRecordLine norm lookup eid (db, c) line = (db, c) :=
      processRecordLine_fixed (h line (List.mem_cons_self line rest))
    simpa [List.foldl_cons, hstep] using
      ih (fun x hx => h x (List.mem_cons_of_mem line hx))

theorem filenameMem_getOrCreate (db : LocalDB) (f : String) (t : Nat) :
    filenameMem (getOrCreateEdlFile db f t).1.edl_files f = true := by
  unfold getOrCreateEdlFile
  dsimp only
  split
  · assumption
  · simp [filenameMem, List.any_append]

theorem getOrCreate_when_mem {db : LocalDB} {f : String} (t : Nat)
    (h : filenameMem db.edl_files f = true) :
    getOrCreateEdlFile db f t
      = (db, (db.edl_files.find? (fun r => decide (r.filename = f))).map
              (fun r => r.edl_id)) := by
  unfold getOrCreateEdlFile
  simp [h]

theorem getOrCreate_snd (db : LocalDB) (f : String) (t : Nat) :
    (getOrCreateEdlFile db f t).2
      = ((getOrCreateEdlFile db f t).1.edl_files.find?
          (fun r => decide (r.filename = f))).map (fun r => r.edl_id) := rfl

theorem getOrCreate_frame (db : LocalDB) (f : String) (t : Nat) :
    (getOrCreateEdlFile db f t).1.local_files = db.local_files ∧
    (getOrCreateEdlFile db f t).1.edl_records = db.edl_records ∧
    (getOrCreateEdlFile db f t).1.edl_metadata = db.edl_metadata := by
  unfold getOrCreateEdlFile
  by_cases h : filenameMem db.edl_files f <;> simp [h]

theorem getOrCreate_stable {db db' : LocalDB} {f : String} {t : Nat} (t' : Nat)
    (h : db'.edl_files = (getOrCreateEdlFile db f t).1.edl_files) :
    getOrCreateEdlFile db' f t' = (db', (getOrCreateEdlFile db f t).2) := by
  have hmem : filenameMem db'.edl_files f = true := by
    rw [h]; exact filenameMem_getOrCreate db f t
  rw [getOrCreate_when_mem t' hmem, h, ← getOrCreate_snd]

theorem metadataMem_insert (db : LocalDB) (eid : Nat) (st : String) :
    metadataMem (insertMetadata db eid st).edl_metadata eid = true := by
  unfold insertMetadata
  split
  · assumption
  · simp [metadataMem, List.any_append]

theorem insertMetadata_of_mem {db : LocalDB} {eid : Nat} (st : String)
    (h : metadataMem db.edl_metadata eid = true) :
    insertMetadata db eid st = db := by
  unfold insertMetadata
  simp [h]

theorem insertMetadata_frame (db : LocalDB) (eid : Nat) (st : String) :
    (insertMetadata db eid st).local_files = db.local_files ∧
    (insertMetadata db eid st).edl_files = db.edl_files ∧
    (insertMetadata db eid st).edl_records = db.edl_records := by
  unfold insertMetadata
  split <;> simp

theorem ingestEdlFile_skip {norm : String → String} {lookup : List (String × Nat)}
    {acc : LocalDB × Nat} {filename header : String} {rest : List String} {t : Nat}
    (hh : ¬ pyStrip header = "# mpv EDL v0") :
    ingestEdlFile norm lookup acc filename (header :: rest) t = acc := by
  unfold ingestEdlFile
  dsimp only
  rw [if_neg hh]

theorem ingestEdlFile_valid_none {norm : String → String}
    {lookup : List (String × Nat)} {db : LocalDB} {c : Nat}
    {filename header : String} {rest : List String} {t : Nat}
    (hh : pyStrip header = "# mpv EDL v0")
    (hg : (getOrCreateEdlFile db filename t).2 = none) :
    ingestEdlFile norm lookup (db, c) filename (header :: rest) t
      = ((getOrCreateEdlFile db filename t).1, c) := by
  unfold ingestEdlFile
  dsimp only
  rw [if_pos hh]
  simp only [hg]

theorem ingestEdlFile_valid_some {norm : String → String}
    {lookup : List (String × Nat)} {db : LocalDB} {c : Nat}
    {filename header : String} {rest : List String} {t : Nat} {eid : Nat}
    (hh : pyStrip header = "# mpv EDL v0")
    (hg : (getOrCreateEdlFile db filename t).2 = some eid) :
    ingestEdlFile norm lookup (db, c) filename (header :: rest) t
      = rest.foldl (processRecordLine norm lookup eid)
          (insertMetadata (getOrCreateEdlFile db filename t).1 eid
            (styleOf filename), c) := by
  unfold ingestEdlFile
  dsimp only
  rw [if_pos hh]
  simp only [hg]

theorem ingestEdlFile_rerun (norm : String → String) (lookup : List (String × Nat))
    (db : LocalDB) (c1 c2 : Nat) (filename : String) (lines : List String)
    (t1 t2 : Nat) :
    ingestEdlFile norm lookup
        ((ingestEdlFile norm lookup (db, c1) filename lines t1).1, c2)
        filename lines t2
      = ((ingestEdlFile norm lookup (db, c1) filename lines t1).1, c2) := by
  cases lines with
  | nil => rfl
  | cons header rest =>
    by_cases hh : pyStrip header = "# mpv EDL v0"
    · rcases hg : (getOrCreateEdlFile db filename t1).2 with _ | eid
      · -- the impossible fetchone-failure path: the file body is skipped
        rw [ingestEdlFile_valid_none hh hg]
        have hg2 : getOrCreateEdlFile (getOrCreateEdlFile db filename t1).1
            filename t2 = ((getOrCreateEdlFile db filename t1).1,
              (getOrCreateEdlFile db filename t1).2) :=
          getOrCreate_stable t2 rfl
        rw [ingestEdlFile_valid_none hh (by rw [hg2, hg])]
        rw [hg2]
      · rw [ingestEdlFile_valid_some hh hg]
        -- names for the state after the first ingestion of the file
        have hmetaframe := insertMetadata_frame
          (getOrCreateEdlFile db filename t1).1 eid (styleOf filename)
        have hfoldframe := processFold_frame norm lookup eid rest
          (insertMetadata (getOrCreateEdlFile db filename t1).1 eid
            (styleOf filename), c1)
        have hfiles : ((rest.foldl (processRecordLine norm lookup eid)
            (insertMetadata (getOrCreateEdlFile db filename t1).1 eid
              (styleOf filename), c1)).1).edl_files
            = (getOrCreateEdlFile db filename t1).1.edl_files := by
          rw [hfoldframe.2.1]
          exact hmetaframe.2.1
        have hg2 : getOrCreateEdlFile
            ((rest.foldl (processRecordLine norm lookup eid)
              (insertMetadata (getOrCreateEdlFile db filename t1).1 eid
                (styleOf filename), c1)).1) filename t2
            = ((rest.foldl (processRecordLine norm lookup eid)
                (insertMetadata (getOrCreateEdlFile db filename t1).1 eid
                  (styleOf filename), c1)).1,
               (getOrCreateEdlFile db filename t1).2) :=
          getOrCreate_stable t2 hfiles
        rw [ingestEdlFile_valid_some hh (by rw [hg2, hg])]
        rw [hg2]
        have hmetamem : metadataMem
            ((rest.foldl (processRecordLine norm lookup eid)
              (insertMetadata (getOrCreateEdlFile db filename t1).1 eid
                (styleOf filename), c1)).1).edl_metadata eid = true := by
          rw [hfoldframe.2.2]
          exact metadataMem_insert (getOrCreateEdlFile db filename t1).1 eid
            (styleOf filename)
        rw [insertMetadata_of_mem (styleOf filename) hmetamem]
        exact processFold_fixed rest _ c2 (fun line hline lid s l hr =>
          processFold_covers eid rest _ hline hr)
    · rw [ingestEdlFile_skip hh, ingestEdlFile_skip hh]

theorem ingestEdlFile_local_files (norm : String → String)
    (lookup : List (String × Nat)) (db : LocalDB) (c : Nat) (filename : String)
    (lines : List String) (t : Nat) :
    (ingestEdlFile norm lookup (db, c) filename lines t).1.local_files
      = db.local_files := by
  cases lines with
  | nil => rfl
  | cons header rest =>
    by_cases hh : pyStrip header = "# mpv EDL v0"
    · rcases hg : (getOrCreateEdlFile db filename t).2 with _ | eid
      · rw [ingestEdlFile_valid_none hh hg]
        exact (getOrCreate_frame db filename t).1
      · rw [ingestEdlFile_valid_some hh hg]
        rw [(processFold_frame norm lookup eid rest _).1]
        rw [(insertMetadata_frame _ eid (styleOf filename)).1]
        exact (getOrCreate_frame db filename t).1
    · rw [ingestEdlFile_skip hh]

/-- Claim C2: ingesting the same cut-list file twice with the store and
filesystem otherwise unchanged is idempotent — the second ingestion run
reports zero newly added cut records and leaves the store (source rows,
metadata rows and cut records alike) exactly as the first run left it. -/
theorem ingest_edl_idempotent (norm : String → String) (db : LocalDB)
    (filename : String) (lines : List String) (t1 t2 : Nat) :
    ingestRun norm (ingestRun norm db [(filename, lines)] t1).1
        [(filename, lines)] t2
      = ((ingestRun norm db [(filename, lines)] t1).1, 0) := by
  unfold ingestRun
  simp only [List.isEmpty_cons, Bool.false_eq_true, if_false, List.foldl_cons,
    List.foldl_nil]
  rw [ingestEdlFile_local_files]
  exact ingestEdlFile_rerun norm (localFileLookup norm db.local_files) db 0 0
    filename lines t1 t2

/-! ## The record pattern and comma-containing paths (Claim C5) -/

theorem takeWhile_pred {α : Type} (p : α → Bool) :
    ∀ (l : List α) {a : α}, a ∈ l.takeWhile p → p a = true := by
  intro l
  induction l with
  | nil => intro a h; cases h
  | cons x xs ih =>
    intro a h
    by_cases hx : p x = true
    · rw [List.takeWhile_cons, if_pos hx] at h
      rcases List.mem_cons.mp h with rfl | h2
      · exact hx
      · exact ih h2
    · rw [List.takeWhile_cons, if_neg hx] at h
      cases h

theorem fracTail_no_comma {xs : List Char} (h : fracTail xs = true) : ',' ∉ xs := by
  intro hmem
  unfold fracTail at h
  rw [Bool.or_eq_true] at h
  rcases h with h | h
  · rw [List.isEmpty_iff] at h
    rw [h] at hmem
    cases hmem
  · rw [Bool.and_eq_true, Bool.and_eq_true] at h
    obtain ⟨⟨hstart, _⟩, hall⟩ := h
    cases xs with
    | nil => cases hmem
    | cons c rest =>
      simp only [listStartsWith, Bool.and_true, beq_iff_eq] at hstart
      subst hstart
      rcases List.mem_cons.mp hmem with he | hm
      · exact absurd he (by decide)
      · have := List.all_eq_true.mp hall ',' (by simpa using hm)
        simp at this

theorem not_mem_comma_of_isDecimal {cs : List Char} (h : isDecimal cs = true) :
    ',' ∉ cs := by
  intro hmem
  unfold isDecimal at h
  rw [Bool.and_eq_true] at h
  obtain ⟨h1, h2⟩ := h
  rw [← List.takeWhile_append_dropWhile (p := Char.isDigit) (l := cs)] at hmem
  rcases List.mem_append.mp hmem with hin | hin
  · have hd := takeWhile_pred Char.isDigit cs hin
    exact absurd hd (by decide)
  · exact absurd hin (fracTail_no_comma h2)

theorem breakAtFirst_append (c : Char) (xs ys : List Char) (h : c ∉ xs) :
    breakAtFirst c (xs ++ c :: ys) = some (xs, ys) := by
  induction xs with
  | nil => simp [breakAtFirst]
  | cons x rest ih =>
    have hxc : ¬ x = c := fun he => h (by rw [he]; exact List.mem_cons_self c rest)
    have hrest : c ∉ rest := fun hm => h (List.mem_cons_of_mem x hm)
    simp [breakAtFirst, hxc, ih hrest]

theorem splitAtLast_append (c : Char) (before after : List Char) (h : c ∉ after) :
    splitAtLast c (before ++ c :: after) = some (before, after) := by
  unfold splitAtLast
  rw [show (before ++ c :: after).reverse
        = after.reverse ++ c :: before.reverse by simp]
  rw [breakAtFirst_append c after.reverse before.reverse (by simpa using h)]
  simp

/-- Claim C5, counterexample: the record line `a,b,1,2`, whose path field
`a,b` contains a comma, parses with the path recovered exactly — the
greedy path group absorbs the embedded comma — so comma-containing paths
are not in general mis-parsed. -/
theorem comma_path_parses_exactly_cex :
    parseRecordLine "a,b,1,2".data = some ("a,b".data, "1".data, "2".data) ∧
    ',' ∈ "a,b".data := by decide

/-- Claim C5, amended: for every record line `path,s1,s2` whose two
trailing fields are valid non-negative decimals, the parser recovers the
path field exactly — even when the path contains commas.  Since the
numeric groups cannot contain a comma, the greedy path group extends to
the second-to-last comma of the line, so comma-containing paths are
representable and round-trip through the format; no mis-parse occurs. -/
theorem record_parse_recovers_comma_paths (path fA fB : List Char)
    (hA : isDecimal fA = true) (hB : isDecimal fB = true) :
    parseRecordLine (path ++ ',' :: (fA ++ ',' :: fB)) = some (path, fA, fB) := by
  have hcA := not_mem_comma_of_isDecimal hA
  have hcB := not_mem_comma_of_isDecimal hB
  unfold parseRecordLine
  have h1 : splitAtLast ',' (path ++ ',' :: (fA ++ ',' :: fB))
      = some (path ++ ',' :: fA, fB) := by
    have h0 := splitAtLast_append ',' (path ++ ',' :: fA) fB hcB
    simpa [List.append_assoc] using h0
  rw [h1]
  dsimp only
  rw [splitAtLast_append ',' path fA hcA]
  simp [hA, hB]

/-- Claim C5, witness: a comma-containing path with fields `1` and `2.5`
is recovered exactly. -/
theorem record_parse_recovers_comma_paths_witness :
    parseRecordLine ("a,b".data ++ ',' :: ("1".data ++ ',' :: "2.5".data))
      = some ("a,b".data, "1".data, "2.5".data) :=
  record_parse_recovers_comma_paths "a,b".data "1".data "2.5".data
    (by decide) (by decide)

/-! ## The derived style label (Claim C4) -/

theorem choppedSuffix_true {cs : List Char} (h : choppedSuffix cs = true) :
    ∃ d1 d2 : Char, d1.isDigit = true ∧ d2.isDigit = true ∧
      cs = ['_', 'c', 'h', 'o', 'p', 'p', 'e', 'd', d1, '-', d2] := by
  unfold choppedSuffix at h
  split at h
  · next d1 d2 =>
    rw [Bool.and_eq_true] at h
    exact ⟨d1, d2, h.1, h.2, rfl⟩
  · exact absurd h (by simp)

/-- Claim C4, counterexample: the base name `a_chopped12-34` carries a
`_chopped<N>-<M>` suffix with multi-digit `<N>` and `<M>`, but the code's
pattern `_chopped\d-\d$` only matches single digits, so the derived style
label is the base name unchanged instead of `a`. -/
theorem style_multi_digit_not_stripped_cex :
    style_name "a_chopped12-34".data = "a_chopped12-34".data ∧
    style_name "a_chopped12-34".data ≠ "a".data := by decide

/-- Claim C4, amended: the suffix stripped from the extension-stripped
base name is `_chopped<d>-<d>` with exactly one digit on each side of the
dash (the source pattern `_chopped\d-\d$`): such a suffix is removed
entirely, and a base name not ending in such a single-digit suffix —
including the multi-digit `_chopped<N>-<M>` forms — is left unchanged. -/
theorem style_name_single_digit_spec :
    (∀ (pre : List Char) (d1 d2 : Char), d1.isDigit = true → d2.isDigit = true →
      style_name (pre ++ ['_', 'c', 'h', 'o', 'p', 'p', 'e', 'd', d1, '-', d2])
        = pre) ∧
    (∀ base : List Char,
      (∀ (pre : List Char) (d1 d2 : Char), d1.isDigit = true → d2.isDigit = true →
        base ≠ pre ++ ['_', 'c', 'h', 'o', 'p', 'p', 'e', 'd', d1, '-', d2]) →
      style_name base = base) := by
  constructor
  · intro pre d1 d2 h1 h2
    have hlen : (pre ++ ['_', 'c', 'h', 'o', 'p', 'p', 'e', 'd', d1, '-', d2]).length
        = pre.length + 11 := by simp
    have hcs : choppedSuffix
        ((pre ++ ['_', 'c', 'h', 'o', 'p', 'p', 'e', 'd', d1, '-', d2]).drop
          ((pre ++ ['_', 'c', 'h', 'o', 'p', 'p', 'e', 'd', d1, '-', d2]).length
            - 11)) = true := by
      rw [hlen, Nat.add_sub_cancel, List.drop_left]
      simp [choppedSuffix, h1, h2]
    unfold style_name
    rw [if_pos hcs, hlen, Nat.add_sub_cancel, List.take_left]
  · intro base hno
    unfold style_name
    split
    · next hc =>
      obtain ⟨d1, d2, h1, h2, heq⟩ := choppedSuffix_true hc
      exfalso
      apply hno (base.take (base.length - 11)) d1 d2 h1 h2
      conv_lhs => rw [← List.take_append_drop (base.length - 11) base]
      rw [heq]
    · rfl

/-- Claim C4, witness: a single-digit `_chopped1-2` suffix is stripped
from the base name `a_chopped1-2`. -/
theorem style_name_single_digit_spec_witness :
    style_name ['a', '_', 'c', 'h', 'o', 'p', 'p', 'e', 'd', '1', '-', '2']
      = ['a'] :=
  style_name_single_digit_spec.1 ['a'] '1' '2' (by decide) (by decide)

/-! ## Malformed-line isolation (Claim C9) -/

theorem processRecordLine_noop {norm : String → String}
    {lookup : List (String × Nat)} {eid : Nat} {acc : LocalDB × Nat} {line : String}
    (h : resolveLine norm lookup line = none) :
    processRecordLine norm lookup eid acc line = acc := by
  unfold processRecordLine
  rw [h]

theorem processFold_noop {norm : String → String} {lookup : List (String × Nat)}
    {eid : Nat} (lines : List String) (acc : LocalDB × Nat)
    (h : ∀ l ∈ lines, resolveLine norm lookup l = none) :
    lines.foldl (processRecordLine norm lookup eid) acc = acc := by
  induction lines with
  | nil => rfl
  | cons line rest ih =>
    rw [List.foldl_cons, processRecordLine_noop (h line (List.mem_cons_self line rest))]
    exact ih (fun x hx => h x (List.mem_cons_of_mem line hx))

theorem processFold_drop_noop {norm : String → String}
    {lookup : List (String × Nat)} {eid : Nat} (pre post : List String)
    {line : String} (h : resolveLine norm lookup line = none) (acc : LocalDB × Nat) :
    (pre ++ line :: post).foldl (processRecordLine norm lookup eid) acc
      = (pre ++ post).foldl (processRecordLine norm lookup eid) acc := by
  rw [List.foldl_append, List.foldl_append, List.foldl_cons, processRecordLine_noop h]

theorem ingestEdlFile_drop_noop {norm : String → String}
    {lookup : List (String × Nat)} (acc : LocalDB × Nat) (filename header : String)
    (pre post : List String) {line : String} (t : Nat)
    (h : resolveLine norm lookup line = none) :
    ingestEdlFile norm lookup acc filename (header :: (pre ++ line :: post)) t
      = ingestEdlFile norm lookup acc filename (header :: (pre ++ post)) t := by
  obtain ⟨db, c⟩ := acc
  by_cases hh : pyStrip header = "# mpv EDL v0"
  · rcases hg : (getOrCreateEdlFile db filename t).2 with _ | eid
    · rw [ingestEdlFile_valid_none hh hg, ingestEdlFile_valid_none hh hg]
    · rw [ingestEdlFile_valid_some hh hg, ingestEdlFile_valid_some hh hg,
        processFold_drop_noop pre post h]
  · rw [ingestEdlFile_skip hh, ingestEdlFile_skip hh]

/-- Claim C9: a malformed record line in a cut-list file — one that fails
the record pattern or whose path is absent from the index — is skipped
without aborting: the whole ingestion run over any surrounding files and
lines produces exactly the store and count it would produce had the
malformed line not been present. -/
theorem malformed_line_isolation (norm : String → String) (db : LocalDB) (t : Nat)
    (fs1 fs2 : List (String × List String)) (name header : String)
    (pre post : List String) (line : String)
    (h : isMalformedRecordLine norm (localFileLookup norm db.local_files) line
          = true) :
    ingestRun norm db (fs1 ++ (name, header :: (pre ++ line :: post)) :: fs2) t
      = ingestRun norm db (fs1 ++ (name, header :: (pre ++ post)) :: fs2) t := by
  have hres : resolveLine norm (localFileLookup norm db.local_files) line = none := by
    unfold isMalformedRecordLine at h
    rw [Bool.and_eq_true, Bool.and_eq_true] at h
    exact Option.isNone_iff_eq_none.mp h.2
  unfold ingestRun
  rw [if_neg (by simp), if_neg (by simp)]
  rw [List.foldl_append, List.foldl_append, List.foldl_cons, List.foldl_cons]
  dsimp only
  rw [ingestEdlFile_drop_noop _ name header pre post t hres]

/-- Claim C9, witness: dropping the unparseable line `garbage` from an
otherwise valid cut-list file leaves the ingestion run's result
unchanged. -/
theorem malformed_line_isolation_witness :
    ingestRun id emptyLocalDB [("f.edl", ["# mpv EDL v0", "garbage"])] 0
      = ingestRun id emptyLocalDB [("f.edl", ["# mpv EDL v0"])] 0 :=
  malformed_line_isolation id emptyLocalDB 0 [] [] "f.edl" "# mpv EDL v0" [] []
    "garbage" (by decide)

/-! ## Source rows are created before record lines (Claim C10) -/

theorem find?_append_of_none {α : Type} (p : α → Bool) (l : List α) (x : α)
    (h : ∀ a ∈ l, p a = false) (hx : p x = true) :
    (l ++ [x]).find? p = some x := by
  induction l with
  | nil => simp [List.find?, hx]
  | cons a rest ih =>
    have ha := h a (List.mem_cons_self a rest)
    simp only [List.cons_append, List.find?]
    rw [ha]
    exact ih (fun b hb => h b (List.mem_cons_of_mem a hb))

theorem getOrCreate_fresh {db : LocalDB} {f : String} (t : Nat)
    (h : ∀ r ∈ db.edl_files, r.filename ≠ f) :
    getOrCreateEdlFile db f t
      = ({ db with
            edl_files := db.edl_files ++ [⟨db.next_edl_id, f, t⟩]
            next_edl_id := db.next_edl_id + 1 }, some db.next_edl_id) := by
  have hmem : filenameMem db.edl_files f = false := by
    rw [filenameMem, List.any_eq_false]
    intro r hr
    simpa using h r hr
  unfold getOrCreateEdlFile
  dsimp only
  rw [if_neg (by simp [hmem])]
  have hfind : ((db.edl_files ++ [(⟨db.next_edl_id, f, t⟩ : EdlFileRow)]).find?
        (fun r => decide (r.filename = f)))
      = some ⟨db.next_edl_id, f, t⟩ :=
    find?_append_of_none _ db.edl_files ⟨db.next_edl_id, f, t⟩
      (fun a ha => by simpa using h a ha) (by simp)
  rw [show ({ db with
        edl_files := db.edl_files ++ [⟨db.next_edl_id, f, t⟩]
        next_edl_id := db.next_edl_id + 1 } : LocalDB).edl_files
      = db.edl_files ++ [⟨db.next_edl_id, f, t⟩] from rfl, hfind]
  rfl

/-- Claim C10: for a cut-list file whose stripped header line is the
exact token, ingestion creates the source row and its metadata row (with
the derived style) before any record line is processed: on a store that
does not yet know the filename, ingesting a valid-header file in which no
record line resolves produces exactly the store extended with the new
`edl_files` row and its `edl_metadata` row and nothing else — in
particular the new source has zero associated cut records; a file that
is empty, or whose header is wrong, creates no source row at all. -/
theorem edl_source_created_without_records
    (norm : String → String) (lookup : List (String × Nat)) (db : LocalDB)
    (c : Nat) (filename header : String) (rest : List String) (t : Nat)
    (hfresh : ∀ r ∈ db.edl_files, r.filename ≠ filename)
    (hmeta : ∀ r ∈ db.edl_metadata, r.edl_id ≠ db.next_edl_id)
    (hrec : ∀ r ∈ db.edl_records, r.edl_id ≠ db.next_edl_id)
    (hheader : pyStrip header = "# mpv EDL v0")
    (hlines : ∀ l ∈ rest, resolveLine norm lookup l = none) :
    (ingestEdlFile norm lookup (db, c) filename (header :: rest) t
      = ({ db with
            edl_files := db.edl_files ++ [⟨db.next_edl_id, filename, t⟩]
            edl_metadata := db.edl_metadata ++ [⟨db.next_edl_id, styleOf filename⟩]
            next_edl_id := db.next_edl_id + 1 }, c)) ∧
    (∀ r ∈ (ingestEdlFile norm lookup (db, c) filename
        (header :: rest) t).1.edl_records, r.edl_id ≠ db.next_edl_id) ∧
    (∀ (h2 : String) (r2 : List String), ¬ pyStrip h2 = "# mpv EDL v0" →
      ingestEdlFile norm lookup (db, c) filename (h2 :: r2) t = (db, c)) ∧
    ingestEdlFile norm lookup (db, c) filename [] t = (db, c) := by
  have hg := getOrCreate_fresh t hfresh
  have hmain : ingestEdlFile norm lookup (db, c) filename (header :: rest) t
      = ({ db with
            edl_files := db.edl_files ++ [⟨db.next_edl_id, filename, t⟩]
            edl_metadata := db.edl_metadata ++ [⟨db.next_edl_id, styleOf filename⟩]
            next_edl_id := db.next_edl_id + 1 }, c) := by
    rw [ingestEdlFile_valid_some hheader (by rw [hg])]
    rw [hg]
    dsimp only
    have hmm : metadataMem
        ({ db with
            edl_files := db.edl_files ++ [⟨db.next_edl_id, filename, t⟩]
            next_edl_id := db.next_edl_id + 1 } : LocalDB).edl_metadata
          db.next_edl_id = false := by
      rw [show ({ db with
            edl_files := db.edl_files ++ [⟨db.next_edl_id, filename, t⟩]
            next_edl_id := db.next_edl_id + 1 } : LocalDB).edl_metadata
          = db.edl_metadata from rfl]
      rw [metadataMem, List.any_eq_false]
      intro r hr
      simpa using hmeta r hr
    unfold insertMetadata
    rw [if_neg (by simp [hmm])]
    rw [processFold_noop rest _ hlines]
  refine ⟨hmain, ?_, ?_, rfl⟩
  · rw [hmain]
    intro r hr
    exact hrec r hr
  · intro h2 r2 hh2
    exact ingestEdlFile_skip hh2

/-- Claim C10, witness: ingesting a fresh valid-header file whose single
record line does not resolve creates the source row and its metadata row
with the derived style `a`, and nothing else. -/
theorem edl_source_created_without_records_witness :
    ingestEdlFile id [] (emptyLocalDB, 0) "a.edl" ["# mpv EDL v0", "bad"] 5
      = ({ emptyLocalDB with
            edl_files := [⟨1, "a.edl", 5⟩]
            edl_metadata := [⟨1, "a"⟩]
            next_edl_id := 2 }, 0) :=
  (edl_source_created_without_records id [] emptyLocalDB 0 "a.edl" "# mpv EDL v0"
    ["bad"] 5 (by decide) (by decide) (by decide) (by decide) (by decide)).1
